import Mathlib

/-!
Verification of the lastuser authorization-core data model.

This file embeds the scope-string algebra and the entity operations of
`lastuser_core/models/client.py` and `lastuser_core/models/user.py` as
executable Lean definitions and proves the specified properties about them.

Python string primitives are modelled at the code-point level: a Python
unicode string is a `String` (a list of `Char`s), `s.split(u' ')` splits on
every single space keeping empty pieces, `u' '.join(xs)` interleaves single
spaces, and `sorted(xs)` sorts lexicographically by code point.
-/

namespace Lastuser

/-- Model of Python `s.split(u' ')` on the underlying character list:
split at every occurrence of the space character, keeping empty pieces.
`splitChars [] = [[]]`, matching Python where `u''.split(u' ') == [u'']`. -/
def splitChars : List Char → List (List Char)
  | [] => [[]]
  | c :: cs =>
    match splitChars cs with
    | [] => [[]]
    | p :: ps => if c = ' ' then [] :: p :: ps else (c :: p) :: ps

/-- Model of Python `u' '.join(pieces)` on character lists: concatenate the
pieces with a single space between consecutive pieces. -/
def joinChars : List (List Char) → List Char
  | [] => []
  | [p] => p
  | p :: q :: ps => p ++ ' ' :: joinChars (q :: ps)

/-- Python `raw.split(u' ')` lifted to `String`. -/
def pySplit (s : String) : List String :=
  (splitChars s.data).map (fun p => String.mk p)

/-- Python `u' '.join(xs)` lifted to `String`. -/
def pyJoin (xs : List String) : String :=
  String.mk (joinChars (xs.map String.data))

/-- Lexicographic comparison of character lists by code point; this is how
Python 2 compares unicode strings. -/
def charsLe : List Char → List Char → Bool
  | [], _ => true
  | _ :: _, [] => false
  | a :: as, b :: bs => if a = b then charsLe as bs else decide (a < b)

/-- Python string comparison `a <= b` (lexicographic by code point). -/
def pyStrLe (a b : String) : Bool :=
  charsLe a.data b.data

/-- Propositional form of `pyStrLe`, used as the sorting relation. -/
def pyLe (a b : String) : Prop :=
  pyStrLe a b = true

instance : DecidableRel pyLe :=
  fun a b => inferInstanceAs (Decidable (pyStrLe a b = true))

/-- Model of Python `sorted(xs)` for lists of strings.  Python sorted is a
stable sort; since strings are compared by their own value, any two sorted
rearrangements of the same multiset of strings are equal, so a concrete
sorting algorithm is a faithful model. -/
def pySorted (xs : List String) : List String :=
  List.insertionSort pyLe xs

/-- Model of `set(xs).union(set(ys))` materialized as a list: the content is
the deduplicated union.  Every use in the source passes the result through
`sorted` (or only consumes its content as a set), so the iteration order of
the Python set does not influence any modelled value. -/
def pySetUnion (xs ys : List String) : List String :=
  (xs ++ ys).dedup

/-! Entity records of `lastuser_core/models/client.py` and `user.py`.
Relationships are modelled by surrogate ids; random-id generation
(`newid`, `newsecret`) is modelled by passing the generated values in. -/

/-- Row of the `user` table (fields relevant to the verified operations). -/
structure User where
  id : Nat
  userid : String
  username : Option String
  fullname : String
  status : Nat
deriving DecidableEq

/-- Constants of `USER_STATUS`. -/
def USER_STATUS.ACTIVE : Nat := 0

/-- Constant `USER_STATUS.SUSPENDED`. -/
def USER_STATUS.SUSPENDED : Nat := 1

/-- Constant `USER_STATUS.MERGED`. -/
def USER_STATUS.MERGED : Nat := 2

/-- Truthiness of an optional Python string argument: `None` and the empty
string are falsy, every other string is truthy. -/
def pyTruthy (o : Option String) : Bool :=
  match o with
  | none => false
  | some s => !(s == "")

/-- Model of `User.get(username=..., userid=...)`: raises `TypeError` unless
exactly one of the two arguments is truthy, then returns the first user row
matching the given identifier with `status=USER_STATUS.ACTIVE`. -/
def User.get (db : List User) (username userid : Option String) : Except String (Option User) :=
  if !(pyTruthy username ^^ pyTruthy userid) then
    .error "Either username or userid should be specified"
  else if pyTruthy userid then
    .ok (db.find? (fun u => decide (some u.userid = userid ∧ u.status = USER_STATUS.ACTIVE)))
  else
    .ok (db.find? (fun u => decide (u.username = username ∧ u.status = USER_STATUS.ACTIVE)))

/-- Row of the `team` table: each team belongs to exactly one organization. -/
structure Team where
  id : Nat
  title : String
  org : Nat
deriving DecidableEq

/-- Row of the `organization` table; `owners` holds the id of the owners
team (nullable column, filled in by the constructor). -/
structure Organization where
  id : Nat
  owners : Option Nat
  userid : String
  name : Option String
  title : String
  description : String
deriving DecidableEq

/-- Model of `Organization.__init__`: column attributes are supplied as
arguments; on a newly created instance the `owners` relationship is `None`
after the base initializer runs, and the constructor body then creates the
`u"Owners"` team for this organization.  Returns the organization together
with the list of teams created by the constructor. -/
def Organization.init (oid ownersTeamId : Nat) (uid : String) (name : Option String)
    (title description : String) : Organization × List Team :=
  let org0 : Organization :=
    { id := oid, owners := none, userid := uid, name := name,
      title := title, description := description }
  if org0.owners = none then
    let t : Team := { id := ownersTeamId, title := "Owners", org := oid }
    ({ org0 with owners := some t.id }, [t])
  else
    (org0, [])

/-- Row of the `permission` table. -/
structure Permission where
  id : Nat
  user : Option Nat
  org : Option Nat
  name : String
  title : String
  allusers : Bool
deriving DecidableEq

/-- Model of `Permission.get(name, user=None, org=None, allusers=False)`:
with `allusers` true it returns the first global permission with the name,
ignoring `user` and `org`; otherwise it raises `TypeError` unless exactly
one of `user`/`org` is given, then returns the first permission with that
name owned by the given principal. -/
def Permission.get (db : List Permission) (name : String) (user org : Option Nat)
    (allusers : Bool) : Except String (Option Permission) :=
  if allusers then
    .ok (db.find? (fun p => decide (p.name = name ∧ p.allusers = true)))
  else if !(user.isSome ^^ org.isSome) then
    .error "Either user or org should be specified"
  else if user.isSome then
    .ok (db.find? (fun p => decide (p.name = name ∧ p.user = user)))
  else
    .ok (db.find? (fun p => decide (p.name = name ∧ p.org = org)))

/-- Row of the `authcode` table (`AuthCode` model). -/
structure AuthCode where
  id : Nat
  user : Nat
  client : Nat
  code : String
  _scope : String
  redirect_uri : String
  used : Bool
deriving DecidableEq

/-- Getter of the `AuthCode.scope` property: `self._scope.split(u' ')`. -/
def AuthCode.scope (c : AuthCode) : List String :=
  pySplit c._scope

/-- Setter of the `AuthCode.scope` property: `self._scope = u' '.join(value)`
(no sorting; the order of `value` is preserved). -/
def AuthCode.set_scope (c : AuthCode) (value : List String) : AuthCode :=
  { c with _scope := pyJoin value }

/-- Row of the `authtoken` table (`AuthToken` model); `user` is nullable
(client-only tokens have no user). -/
structure AuthToken where
  id : Nat
  user : Option Nat
  client : Nat
  token : String
  token_type : String
  secret : Option String
  _algorithm : Option String
  _scope : String
  validity : Nat
  refresh_token : Option String
deriving DecidableEq

/-- Getter of the `AuthToken.scope` property: `self._scope.split(u' ')`. -/
def AuthToken.scope (t : AuthToken) : List String :=
  pySplit t._scope

/-- Setter of the `AuthToken.scope` property:
`self._scope = u' '.join(sorted(value))` (sorted, unlike `AuthCode`). -/
def AuthToken.set_scope (t : AuthToken) (value : List String) : AuthToken :=
  { t with _scope := pyJoin (pySorted value) }

/-- Model of `AuthToken.refresh`: when `refresh_token` is not `None`, rotate
`token` and `secret` to the freshly generated values (`newid()` and
`newsecret()` are modelled as the arguments); otherwise do nothing.  No
error is raised in either case. -/
def AuthToken.refresh (t : AuthToken) (fresh_token fresh_secret : String) : AuthToken :=
  if t.refresh_token ≠ none then
    { t with token := fresh_token, secret := some fresh_secret }
  else
    t

/-- Setter of the `AuthToken.algorithm` property: `None` clears both
`_algorithm` and `secret`; a recognized algorithm name is stored as-is
(leaving `secret` alone); any other value raises `ValueError` before any
field is written. -/
def AuthToken.set_algorithm (t : AuthToken) (value : Option String) : Except String AuthToken :=
  match value with
  | none => .ok { t with _algorithm := none, secret := none }
  | some v =>
    if v = "hmac-sha-1" ∨ v = "hmac-sha-256" then
      .ok { t with _algorithm := some v }
    else
      .error "Unrecognized algorithm"

/-- The values the `algorithm` column may legally hold. -/
def allowedAlgorithms : List (Option String) :=
  [none, some "hmac-sha-1", some "hmac-sha-256"]

/-- Application of one `algorithm` assignment, keeping the token unchanged
when the setter raises (the exception propagates before any mutation). -/
def applyAlgorithm (t : AuthToken) (v : Option String) : AuthToken :=
  match t.set_algorithm v with
  | .ok t2 => t2
  | .error _ => t

/-- Snapshot of the `Client: token` mapping built by `AuthToken.migrate_user`
before its loop: the ids of `newuser`'s tokens for a given client, in table
order. -/
def newtokenIds (db : List AuthToken) (nu c : Nat) : List Nat :=
  (db.filter (fun t => decide (t.user = some nu ∧ t.client = c))).map (fun t => t.id)

/-- Body of the `for token in oldtokens` loop of `AuthToken.migrate_user`:
if `newuser` holds a token for the same client (scanning the pre-loop
snapshot for the first entry whose current user is `newuser`), extend that
token's scope with the old token's scope and delete the old token; otherwise
reassign the old token to `newuser`.  Deleting a row removes it from the
session; the claims exercised here have distinct old and new users, for
which this coincides with SQLAlchemy's deferred delete. -/
def migrateStep (db : List AuthToken) (nu : Nat) (cur : List AuthToken) (tok : AuthToken) :
    List AuthToken :=
  match (newtokenIds db nu tok.client).find? (fun nid =>
      match cur.find? (fun t => decide (t.id = nid)) with
      | some nt => decide (nt.user = some nu)
      | none => false) with
  | some nid =>
    (cur.map (fun t =>
      if t.id = nid then t.set_scope (pySetUnion t.scope tok.scope) else t)).filter
      (fun t => decide (¬t.id = tok.id))
  | none =>
    cur.map (fun t => if t.id = tok.id then { t with user := some nu } else t)

/-- Model of `AuthToken.migrate_user(olduser, newuser)`: a no-op when either
user is `None`; otherwise snapshot `olduser`'s tokens and the per-client
mapping of `newuser`'s tokens, then run the merge/reassign loop. -/
def AuthToken.migrate_user (olduser newuser : Option Nat) (db : List AuthToken) :
    List AuthToken :=
  match olduser, newuser with
  | some ou, some nu =>
    (db.filter (fun t => decide (t.user = some ou))).foldl (migrateStep db nu) db
  | _, _ => db

/-- Row of the `userclientpermissions` table. -/
structure UserClientPermissions where
  id : Nat
  user : Nat
  client : Nat
  access_permissions : String
deriving DecidableEq

/-- Permission-string merge of `UserClientPermissions.migrate_user`:
union the two split token sets, remove the single-space token `u' '` if
present (it never is: splitting on spaces cannot produce it), and write back
the sorted space-joined string. -/
def mergedPermissionString (operm_str nperm_str : String) : String :=
  let tokens := pySetUnion (pySplit operm_str) (pySplit nperm_str)
  let tokens := if " " ∈ tokens then tokens.erase " " else tokens
  pyJoin (pySorted tokens)

/-- Model of `UserClientPermissions.migrate_user(olduser, newuser)`: for each
of `olduser`'s rows, if `newuser` has a row for the same client, merge the
permission strings into every such row of `newuser` and delete `olduser`'s
row, else reassign the row to `newuser`. -/
def UserClientPermissions.migrate_user (ou nu : Nat) (db : List UserClientPermissions) :
    List UserClientPermissions :=
  (db.filter (fun p => decide (p.user = ou))).foldl (fun cur operm =>
    if (cur.filter (fun p => decide (p.user = nu))).any
        (fun np => decide (np.client = operm.client)) then
      (cur.map (fun p =>
        if p.user = nu ∧ p.client = operm.client then
          { p with access_permissions :=
              mergedPermissionString operm.access_permissions p.access_permissions }
        else p)).filter (fun p => decide (¬p.id = operm.id))
    else
      cur.map (fun p => if p.id = operm.id then { p with user := nu } else p)) db

/-! Lemmas about the split/join primitives. -/

theorem splitChars_ne_nil (cs : List Char) : splitChars cs ≠ [] := by
  induction cs with
  | nil => simp [splitChars]
  | cons c cs ih =>
    cases h : splitChars cs with
    | nil => exact absurd h ih
    | cons p ps =>
      simp only [splitChars, h]
      split <;> simp

theorem space_not_mem_splitChars (cs : List Char) : ∀ p ∈ splitChars cs, ' ' ∉ p := by
  induction cs with
  | nil =>
    intro p hp
    simp [splitChars] at hp
    simp [hp]
  | cons c cs ih =>
    intro p hp
    cases h : splitChars cs with
    | nil => exact absurd h (splitChars_ne_nil cs)
    | cons q qs =>
      simp only [splitChars, h] at hp
      by_cases hc : c = ' '
      · rw [if_pos hc] at hp
        rcases List.mem_cons.mp hp with hp | hp
        · simp [hp]
        · exact ih p (h ▸ hp)
      · rw [if_neg hc] at hp
        rcases List.mem_cons.mp hp with hp | hp
        · subst hp
          intro hmem
          rcases List.mem_cons.mp hmem with hmem | hmem
          · exact hc hmem.symm
          · exact ih q (h ▸ List.mem_cons_self q qs) hmem
        · exact ih p (h ▸ List.mem_cons_of_mem q hp)

theorem joinChars_cons_cons (c : Char) (p : List Char) (ps : List (List Char)) :
    joinChars ((c :: p) :: ps) = c :: joinChars (p :: ps) := by
  cases ps <;> simp [joinChars]

theorem joinChars_splitChars (cs : List Char) : joinChars (splitChars cs) = cs := by
  induction cs with
  | nil => rfl
  | cons c cs ih =>
    cases h : splitChars cs with
    | nil => exact absurd h (splitChars_ne_nil cs)
    | cons p ps =>
      simp only [splitChars, h]
      by_cases hc : c = ' '
      · rw [if_pos hc, hc]
        show joinChars ([] :: p :: ps) = ' ' :: cs
        simp only [joinChars, List.nil_append]
        rw [← h, ih]
      · rw [if_neg hc, joinChars_cons_cons, ← h, ih]

theorem splitChars_of_no_space (p : List Char) (h : ' ' ∉ p) : splitChars p = [p] := by
  induction p with
  | nil => rfl
  | cons c p ih =>
    have hc : c ≠ ' ' := fun hce => h (hce ▸ List.mem_cons_self c p)
    have hp : ' ' ∉ p := fun hm => h (List.mem_cons_of_mem c hm)
    simp only [splitChars, ih hp]
    rw [if_neg hc]

theorem splitChars_append_space (p cs : List Char) (h : ' ' ∉ p) :
    splitChars (p ++ ' ' :: cs) = p :: splitChars cs := by
  induction p with
  | nil =>
    cases h2 : splitChars cs with
    | nil => exact absurd h2 (splitChars_ne_nil cs)
    | cons q qs =>
      simp only [List.nil_append, splitChars, h2]
      simp
  | cons c p ih =>
    have hc : c ≠ ' ' := fun hce => h (hce ▸ List.mem_cons_self c p)
    have hp : ' ' ∉ p := fun hm => h (List.mem_cons_of_mem c hm)
    have hin := ih hp
    rw [List.cons_append]
    cases h2 : splitChars cs with
    | nil => exact absurd h2 (splitChars_ne_nil cs)
    | cons q qs =>
      rw [h2] at hin
      simp only [splitChars, hin, h2]
      rw [if_neg hc]

theorem splitChars_joinChars (ps : List (List Char)) (hne : ps ≠ [])
    (hsp : ∀ p ∈ ps, ' ' ∉ p) : splitChars (joinChars ps) = ps := by
  induction ps with
  | nil => exact absurd rfl hne
  | cons p ps ih =>
    cases ps with
    | nil =>
      show splitChars (joinChars [p]) = [p]
      simp only [joinChars]
      exact splitChars_of_no_space p (hsp p (List.mem_cons_self p []))
    | cons q qs =>
      show splitChars (p ++ ' ' :: joinChars (q :: qs)) = p :: q :: qs
      rw [splitChars_append_space p _ (hsp p (List.mem_cons_self p _))]
      rw [ih (by simp) (fun r hr => hsp r (List.mem_cons_of_mem p hr))]

/-! Lifts of the split/join lemmas to `String`. -/

theorem pySplit_ne_nil (s : String) : pySplit s ≠ [] := by
  intro h
  exact splitChars_ne_nil s.data (List.map_eq_nil_iff.mp h)

theorem pySplit_no_space (s : String) : ∀ x ∈ pySplit s, ' ' ∉ x.data := by
  intro x hx
  rcases List.mem_map.mp hx with ⟨p, hp, hpx⟩
  rw [← hpx]
  exact space_not_mem_splitChars s.data p hp

theorem map_data_map_mk (ps : List (List Char)) :
    ((ps.map (fun p => String.mk p)).map String.data) = ps := by
  rw [List.map_map]
  exact List.map_id'' (fun p => rfl) ps

theorem map_mk_map_data (xs : List String) :
    ((xs.map String.data).map (fun p => String.mk p)) = xs := by
  rw [List.map_map]
  exact List.map_id'' (fun x => rfl) xs

theorem pyJoin_pySplit (s : String) : pyJoin (pySplit s) = s := by
  show String.mk (joinChars (((splitChars s.data).map (fun p => String.mk p)).map String.data)) = s
  rw [map_data_map_mk, joinChars_splitChars]

theorem pySplit_pyJoin (xs : List String) (hne : xs ≠ []) (hsp : ∀ x ∈ xs, ' ' ∉ x.data) :
    pySplit (pyJoin xs) = xs := by
  show ((splitChars (joinChars (xs.map String.data))).map (fun p => String.mk p)) = xs
  rw [splitChars_joinChars (xs.map String.data)
    (fun h => hne (List.map_eq_nil_iff.mp h))
    (by
      intro p hp
      rcases List.mem_map.mp hp with ⟨x, hx, hxp⟩
      rw [← hxp]
      exact hsp x hx)]
  exact map_mk_map_data xs

theorem pySorted_perm (xs : List String) : (pySorted xs).Perm xs :=
  List.perm_insertionSort pyLe xs

theorem pySorted_ne_nil (xs : List String) (h : xs ≠ []) : pySorted xs ≠ [] := by
  intro h0
  have hperm := pySorted_perm xs
  rw [h0] at hperm
  exact h hperm.nil_eq.symm

theorem pySorted_mem (xs : List String) (x : String) : x ∈ pySorted xs ↔ x ∈ xs :=
  (pySorted_perm xs).mem_iff

theorem pySetUnion_mem (xs ys : List String) (x : String) :
    x ∈ pySetUnion xs ys ↔ x ∈ xs ∨ x ∈ ys := by
  simp [pySetUnion, List.mem_dedup]

theorem pySetUnion_ne_nil (xs ys : List String) (h : xs ≠ []) : pySetUnion xs ys ≠ [] := by
  intro h0
  rcases List.exists_mem_of_ne_nil xs h with ⟨x, hx⟩
  have : x ∈ pySetUnion xs ys := (pySetUnion_mem xs ys x).mpr (Or.inl hx)
  rw [h0] at this
  exact List.not_mem_nil x this

/-! Lemmas about the scope getter/setter pairs. -/

theorem authcode_scope_set_scope (c : AuthCode) (v : List String) (hne : v ≠ [])
    (hsp : ∀ x ∈ v, ' ' ∉ x.data) : (c.set_scope v).scope = v :=
  pySplit_pyJoin v hne hsp

theorem authtoken_scope_set_scope (t : AuthToken) (v : List String) (hne : v ≠ [])
    (hsp : ∀ x ∈ v, ' ' ∉ x.data) : (t.set_scope v).scope = pySorted v := by
  show pySplit (pyJoin (pySorted v)) = pySorted v
  exact pySplit_pyJoin (pySorted v) (pySorted_ne_nil v hne)
    (fun x hx => hsp x ((pySorted_mem v x).mp hx))

/-! Generic list helpers used by the migration proofs. -/

theorem filter_eq_singleton_of {α : Type} {p : α → Bool} {xs : List α} {a : α}
    (hnd : xs.Nodup) (ha : a ∈ xs) (hpa : p a = true)
    (hu : ∀ b ∈ xs, p b = true → b = a) : xs.filter p = [a] := by
  induction xs with
  | nil => cases ha
  | cons x rest ih =>
    rcases List.mem_cons.mp ha with rfl | hmem
    · rw [List.filter_cons_of_pos hpa]
      have hrest : rest.filter p = [] := by
        rw [List.filter_eq_nil_iff]
        intro b hb hpb
        exact (List.nodup_cons.mp hnd).1
          ((hu b (List.mem_cons_of_mem _ hb) hpb) ▸ hb)
      rw [hrest]
    · have hpx : ¬p x = true := by
        intro hpx
        exact (List.nodup_cons.mp hnd).1
          ((hu x (List.mem_cons_self x rest) hpx) ▸ hmem)
      rw [List.filter_cons_of_neg hpx]
      exact ih (List.nodup_cons.mp hnd).2 hmem
        (fun b hb hpb => hu b (List.mem_cons_of_mem _ hb) hpb)

theorem filter_singleton_decomp {α : Type} {p : α → Bool} {xs : List α} {a : α}
    (h : xs.filter p = [a]) :
    ∃ l1 l2, xs = l1 ++ a :: l2 ∧ (∀ x ∈ l1, ¬p x = true) ∧ (∀ x ∈ l2, ¬p x = true) := by
  induction xs with
  | nil => simp at h
  | cons x rest ih =>
    by_cases hpx : p x = true
    · rw [List.filter_cons_of_pos hpx] at h
      have hxa : x = a := by injection h
      have hrest : rest.filter p = [] := by injection h
      refine ⟨[], rest, by rw [hxa]; rfl, ?_, ?_⟩
      · intro y hy
        cases hy
      · intro y hy
        exact List.filter_eq_nil_iff.mp hrest y hy
    · rw [List.filter_cons_of_neg hpx] at h
      rcases ih h with ⟨l1, l2, hx, h1, h2⟩
      refine ⟨x :: l1, l2, by rw [hx]; rfl, ?_, h2⟩
      intro y hy
      rcases List.mem_cons.mp hy with rfl | hy
      · exact hpx
      · exact h1 y hy

/-- Ids of the token rows, as a list; their distinctness models the primary
key of the table. -/
def NodupIds (xs : List AuthToken) : Prop :=
  (xs.map (fun t => t.id)).Nodup

theorem nodupIds_cons {x : AuthToken} {rest : List AuthToken} (h : NodupIds (x :: rest)) :
    x.id ∉ rest.map (fun t => t.id) ∧ NodupIds rest := by
  rw [NodupIds, List.map_cons, List.nodup_cons] at h
  exact h

theorem nodupIds_id_inj {xs : List AuthToken} (hnd : NodupIds xs) {a b : AuthToken}
    (ha : a ∈ xs) (hb : b ∈ xs) (h : a.id = b.id) : a = b :=
  List.inj_on_of_nodup_map hnd ha hb h

theorem nodupIds_nodup {xs : List AuthToken} (hnd : NodupIds xs) : xs.Nodup :=
  List.Nodup.of_map _ hnd

theorem find?_id_nodup {xs : List AuthToken} (hnd : NodupIds xs) {a : AuthToken}
    (ha : a ∈ xs) : xs.find? (fun t => decide (t.id = a.id)) = some a := by
  induction xs with
  | nil => cases ha
  | cons x rest ih =>
    by_cases hx : x.id = a.id
    · have hd : decide (x.id = a.id) = true := decide_eq_true hx
      simp only [List.find?_cons, hd]
      rcases List.mem_cons.mp ha with rfl | hmem
      · rfl
      · exact absurd (List.mem_map.mpr ⟨a, hmem, hx.symm⟩) (nodupIds_cons hnd).1
    · have hd : decide (x.id = a.id) = false := decide_eq_false hx
      simp only [List.find?_cons, hd]
      rcases List.mem_cons.mp ha with rfl | hmem
      · exact absurd rfl hx
      · exact ih (nodupIds_cons hnd).2 hmem

/-- Relation between an original row and its current in-session state during
`AuthToken.migrate_user`: unchanged, reassigned to the new user, or (for a
row of the new user) scope-extended. -/
def TokenRel (ou nu : Nat) (t1 t2 : AuthToken) : Prop :=
  t2 = t1 ∨ (t1.user = some ou ∧ t2 = { t1 with user := some nu }) ∨
    (t1.user = some nu ∧ ∃ s, t2 = { t1 with _scope := s })

/-- Correspondence between the table snapshot and the current session state:
every current row descends from an original row via `TokenRel`. -/
def TokenCorr (db : List AuthToken) (ou nu : Nat) (cur : List AuthToken) : Prop :=
  ∀ t2 ∈ cur, ∃ t1 ∈ db, TokenRel ou nu t1 t2

theorem TokenRel.id_eq {ou nu : Nat} {t1 t2 : AuthToken} (h : TokenRel ou nu t1 t2) :
    t2.id = t1.id := by
  rcases h with rfl | ⟨_, rfl⟩ | ⟨_, s, rfl⟩ <;> rfl

theorem TokenRel.client_eq {ou nu : Nat} {t1 t2 : AuthToken} (h : TokenRel ou nu t1 t2) :
    t2.client = t1.client := by
  rcases h with rfl | ⟨_, rfl⟩ | ⟨_, s, rfl⟩ <;> rfl

theorem TokenRel.user_cases {ou nu : Nat} {t1 t2 : AuthToken} (h : TokenRel ou nu t1 t2) :
    t2.user = t1.user ∨ t2.user = some nu := by
  rcases h with rfl | ⟨_, rfl⟩ | ⟨_, s, rfl⟩
  · exact Or.inl rfl
  · exact Or.inr rfl
  · exact Or.inl rfl

theorem tokenCorr_refl (db : List AuthToken) (ou nu : Nat) : TokenCorr db ou nu db :=
  fun t2 ht2 => ⟨t2, ht2, Or.inl rfl⟩

/-- Facts extracted from a successful merge-target search inside
`migrateStep`. -/
theorem migrate_find_facts {db : List AuthToken} {nu : Nat} {cur : List AuthToken}
    {tok : AuthToken} {nid : Nat}
    (hfind : (newtokenIds db nu tok.client).find? (fun nid =>
      match cur.find? (fun t => decide (t.id = nid)) with
      | some nt => decide (nt.user = some nu)
      | none => false) = some nid) :
    (∃ nt ∈ cur, nt.id = nid ∧ nt.user = some nu ∧
       cur.find? (fun t => decide (t.id = nid)) = some nt) ∧
    (∃ tdb ∈ db, tdb.id = nid ∧ tdb.user = some nu ∧ tdb.client = tok.client) := by
  have hcond := List.find?_some hfind
  have hmem := List.mem_of_find?_eq_some hfind
  constructor
  · cases hnt : cur.find? (fun t => decide (t.id = nid)) with
    | none => rw [hnt] at hcond; cases hcond
    | some nt =>
      rw [hnt] at hcond
      have h4 := @List.find?_some _ (fun t => decide (t.id = nid)) nt cur hnt
      exact ⟨nt, List.mem_of_find?_eq_some hnt,
        of_decide_eq_true h4, of_decide_eq_true hcond, rfl⟩
  · rcases List.mem_map.mp hmem with ⟨tdb, htdb, hid⟩
    have h2 := List.mem_filter.mp htdb
    have h3 := of_decide_eq_true h2.2
    exact ⟨tdb, h2.1, hid, h3.1, h3.2⟩

theorem migrateStep_corr {db : List AuthToken} {ou nu : Nat} {cur : List AuthToken}
    {tok : AuthToken}
    (hcorr : TokenCorr db ou nu cur) (hdb : NodupIds db)
    (htok : tok ∈ db) (htoku : tok.user = some ou) (hne : ou ≠ nu) :
    TokenCorr db ou nu (migrateStep db nu cur tok) := by
  intro t2 ht2
  unfold migrateStep at ht2
  split at ht2
  case _ nid hfind =>
    rcases migrate_find_facts hfind with ⟨_, tdb, htdb, htdbid, htdbu, _⟩
    have ht2' := (List.mem_filter.mp ht2).1
    rcases List.mem_map.mp ht2' with ⟨t, ht, hteq⟩
    by_cases hid : t.id = nid
    · rw [if_pos hid] at hteq
      rcases hcorr t ht with ⟨t1, ht1, hrel⟩
      have h1 : t1 = tdb := nodupIds_id_inj hdb ht1 htdb (by rw [← hrel.id_eq, hid, htdbid])
      rcases hrel with ht1e | ⟨hu, ht1e⟩ | ⟨hu, s, ht1e⟩
      · rw [ht1e, h1] at hteq
        exact ⟨tdb, htdb, Or.inr (Or.inr ⟨htdbu,
          pyJoin (pySorted (pySetUnion tdb.scope tok.scope)), hteq.symm⟩)⟩
      · rw [h1, htdbu] at hu
        exact absurd (Option.some.inj hu).symm hne
      · rw [ht1e, h1] at hteq
        exact ⟨tdb, htdb, Or.inr (Or.inr ⟨htdbu,
          pyJoin (pySorted (pySetUnion (AuthToken.scope { tdb with _scope := s }) tok.scope)),
          hteq.symm⟩)⟩
    · rw [if_neg hid] at hteq
      exact hteq ▸ hcorr t ht
  case _ hfind =>
    rcases List.mem_map.mp ht2 with ⟨t, ht, hteq⟩
    by_cases hid : t.id = tok.id
    · rw [if_pos hid] at hteq
      rcases hcorr t ht with ⟨t1, ht1, hrel⟩
      have h1 : t1 = tok := nodupIds_id_inj hdb ht1 htok (by rw [← hrel.id_eq, hid])
      rcases hrel with ht1e | ⟨hu, ht1e⟩ | ⟨hu, s, ht1e⟩
      · rw [ht1e, h1] at hteq
        exact ⟨tok, htok, Or.inr (Or.inl ⟨htoku, hteq.symm⟩)⟩
      · rw [ht1e, h1] at hteq
        exact ⟨tok, htok, Or.inr (Or.inl ⟨htoku, hteq.symm⟩)⟩
      · rw [h1, htoku] at hu
        exact absurd (Option.some.inj hu) hne
    · rw [if_neg hid] at hteq
      exact hteq ▸ hcorr t ht

theorem map_id_eq {f : AuthToken → AuthToken} (hf : ∀ t, (f t).id = t.id)
    (xs : List AuthToken) :
    (xs.map f).map (fun t => t.id) = xs.map (fun t => t.id) := by
  rw [List.map_map]
  exact List.map_congr_left (fun t _ => hf t)

theorem migrateStep_nodupIds {db : List AuthToken} {nu : Nat} {cur : List AuthToken}
    {tok : AuthToken} (hcur : NodupIds cur) : NodupIds (migrateStep db nu cur tok) := by
  unfold migrateStep
  split
  case _ nid hfind =>
    have h1 : NodupIds (cur.map (fun t =>
        if t.id = nid then t.set_scope (pySetUnion t.scope tok.scope) else t)) := by
      rw [NodupIds, map_id_eq]
      · exact hcur
      · intro t
        by_cases h : t.id = nid
        · rw [if_pos h]
          rfl
        · rw [if_neg h]
    exact List.Nodup.sublist (List.Sublist.map _ (List.filter_sublist _)) h1
  case _ hfind =>
    rw [NodupIds, map_id_eq]
    · exact hcur
    · intro t
      by_cases h : t.id = tok.id
      · rw [if_pos h]
      · rw [if_neg h]

theorem migrateStep_none_kept {db : List AuthToken} {ou nu : Nat} {cur : List AuthToken}
    {tok : AuthToken}
    (hcorr : TokenCorr db ou nu cur) (hdb : NodupIds db) (hcur : NodupIds cur)
    (htok : tok ∈ db) (htoku : tok.user = some ou) :
    ∀ t ∈ cur, t.user = none → t ∈ migrateStep db nu cur tok := by
  intro t ht htu
  have hidtok : ¬t.id = tok.id := by
    intro hid
    rcases hcorr t ht with ⟨t1, ht1, hrel⟩
    have h1 : t1 = tok := nodupIds_id_inj hdb ht1 htok (by rw [← hrel.id_eq, hid])
    subst h1
    rcases hrel.user_cases with hu | hu
    · rw [htu] at hu
      rw [htoku] at hu
      exact Option.noConfusion hu
    · rw [htu] at hu
      exact Option.noConfusion hu
  unfold migrateStep
  split
  case _ nid hfind =>
    rcases migrate_find_facts hfind with ⟨⟨nt, hnt, hntid, hntu, _⟩, _⟩
    have hid : ¬t.id = nid := by
      intro hid
      have : t = nt := nodupIds_id_inj hcur ht hnt (by rw [hid, hntid])
      rw [this, hntu] at htu
      cases htu
    refine List.mem_filter.mpr ⟨?_, decide_eq_true hidtok⟩
    have : (if t.id = nid then t.set_scope (pySetUnion t.scope tok.scope) else t) = t :=
      if_neg hid
    exact this ▸ List.mem_map_of_mem _ ht
  case _ hfind =>
    have : (if t.id = tok.id then { t with user := some nu } else t) = t := if_neg hidtok
    exact this ▸ List.mem_map_of_mem _ ht

theorem migrateStep_ou_shrink {db : List AuthToken} {ou nu : Nat} {cur : List AuthToken}
    {tok : AuthToken}
    (hcur : NodupIds cur) (hne : ou ≠ nu) :
    ∀ t2 ∈ migrateStep db nu cur tok, t2.user = some ou →
      ¬t2.id = tok.id ∧ ∃ t ∈ cur, t.id = t2.id ∧ t.user = some ou := by
  intro t2 ht2 ht2u
  unfold migrateStep at ht2
  split at ht2
  case _ nid hfind =>
    rcases migrate_find_facts hfind with ⟨⟨nt, hnt, hntid, hntu, _⟩, _⟩
    have hmem := List.mem_filter.mp ht2
    rcases List.mem_map.mp hmem.1 with ⟨t, ht, hteq⟩
    by_cases hid : t.id = nid
    · rw [if_pos hid] at hteq
      have htnt : t = nt := nodupIds_id_inj hcur ht hnt (by rw [hid, hntid])
      have : t2.user = some nu := by rw [← hteq, htnt]; exact hntu
      rw [ht2u] at this
      exact absurd (Option.some.inj this) hne
    · rw [if_neg hid] at hteq
      subst hteq
      exact ⟨of_decide_eq_true hmem.2, t, ht, rfl, ht2u⟩
  case _ hfind =>
    rcases List.mem_map.mp ht2 with ⟨t, ht, hteq⟩
    by_cases hid : t.id = tok.id
    · rw [if_pos hid] at hteq
      have : t2.user = some nu := by rw [← hteq]
      rw [ht2u] at this
      exact absurd (Option.some.inj this) hne
    · rw [if_neg hid] at hteq
      subst hteq
      exact ⟨hid, t, ht, rfl, ht2u⟩

theorem filter_swap (p q : AuthToken → Bool) (xs : List AuthToken) :
    (xs.filter q).filter p = (xs.filter p).filter q := by
  rw [List.filter_filter, List.filter_filter]
  exact List.filter_congr (fun t _ => Bool.and_comm _ _)

theorem map_filter_comm (f : AuthToken → AuthToken) (p : AuthToken → Bool)
    (hp : ∀ t, p (f t) = p t) (xs : List AuthToken) :
    (xs.map f).filter p = (xs.filter p).map f := by
  rw [List.filter_map]
  congr 1
  exact List.filter_congr (fun t _ => hp t)

theorem filter_user_client (xs : List AuthToken) (u : Option Nat) (c : Nat) :
    xs.filter (fun t => decide (t.user = u ∧ t.client = c)) =
      (xs.filter (fun t => decide (t.client = c))).filter (fun t => decide (t.user = u)) := by
  rw [List.filter_filter]
  exact List.filter_congr (fun t _ => by rw [Bool.decide_and])

theorem migrateStep_frame {db : List AuthToken} {ou nu : Nat} {cur : List AuthToken}
    {tok : AuthToken} {c : Nat}
    (hcorr : TokenCorr db ou nu cur) (hdb : NodupIds db)
    (htok : tok ∈ db) (hclne : tok.client ≠ c) :
    (migrateStep db nu cur tok).filter (fun t => decide (t.client = c)) =
      cur.filter (fun t => decide (t.client = c)) := by
  unfold migrateStep
  split
  case _ nid hfind =>
    rcases migrate_find_facts hfind with ⟨_, tdb, htdb, htdbid, htdbu, htdbc⟩
    have hkey : ∀ t ∈ cur, t.client = c → ¬t.id = nid ∧ ¬t.id = tok.id := by
      intro t ht htc
      rcases hcorr t ht with ⟨t1, ht1, hrel⟩
      constructor
      · intro hid
        have he : t1 = tdb := nodupIds_id_inj hdb ht1 htdb (by rw [← hrel.id_eq, hid, htdbid])
        rw [hrel.client_eq, he, htdbc] at htc
        exact hclne htc
      · intro hid
        have he : t1 = tok := nodupIds_id_inj hdb ht1 htok (by rw [← hrel.id_eq, hid])
        rw [hrel.client_eq, he] at htc
        exact hclne htc
    rw [filter_swap, map_filter_comm _ _ (fun t => by
      by_cases h : t.id = nid
      · rw [if_pos h]
        rfl
      · rw [if_neg h])]
    have h1 : ∀ t ∈ cur.filter (fun t => decide (t.client = c)),
        (fun t => if t.id = nid then t.set_scope (pySetUnion t.scope tok.scope) else t) t
          = (fun t => t) t := by
      intro t ht
      have h2 := List.mem_filter.mp ht
      exact if_neg (hkey t h2.1 (of_decide_eq_true h2.2)).1
    rw [List.map_congr_left h1, List.map_id']
    rw [List.filter_eq_self.mpr]
    intro t ht
    have h2 := List.mem_filter.mp ht
    exact decide_eq_true (hkey t h2.1 (of_decide_eq_true h2.2)).2
  case _ hfind =>
    have hkey : ∀ t ∈ cur, t.client = c → ¬t.id = tok.id := by
      intro t ht htc hid
      rcases hcorr t ht with ⟨t1, ht1, hrel⟩
      have he : t1 = tok := nodupIds_id_inj hdb ht1 htok (by rw [← hrel.id_eq, hid])
      rw [hrel.client_eq, he] at htc
      exact hclne htc
    rw [map_filter_comm _ _ (fun t => by
      by_cases h : t.id = tok.id
      · rw [if_pos h]
      · rw [if_neg h])]
    have h1 : ∀ t ∈ cur.filter (fun t => decide (t.client = c)),
        (fun t => if t.id = tok.id then { t with user := some nu } else t) t
          = (fun t => t) t := by
      intro t ht
      have h2 := List.mem_filter.mp ht
      exact if_neg (hkey t h2.1 (of_decide_eq_true h2.2))
    rw [List.map_congr_left h1, List.map_id']

theorem migrateStep_at_match {db : List AuthToken} {nu : Nat} {cur : List AuthToken}
    {told tnew : AuthToken}
    (hcur : NodupIds cur)
    (hnt : newtokenIds db nu told.client = [tnew.id])
    (htnewcur : tnew ∈ cur) (htnewu : tnew.user = some nu) :
    migrateStep db nu cur told =
      (cur.map (fun t =>
        if t.id = tnew.id then t.set_scope (pySetUnion t.scope told.scope) else t)).filter
        (fun t => decide (¬t.id = told.id)) := by
  have hfindcur : cur.find? (fun t => decide (t.id = tnew.id)) = some tnew :=
    find?_id_nodup hcur htnewcur
  have hcond : (match cur.find? (fun t => decide (t.id = tnew.id)) with
      | some nt => decide (nt.user = some nu)
      | none => false) = true := by
    rw [hfindcur]
    exact decide_eq_true htnewu
  unfold migrateStep
  rw [hnt]
  simp only [List.find?_cons, hcond]

theorem migrate_fold_corr {db : List AuthToken} {ou nu : Nat}
    (hdb : NodupIds db) (hne : ou ≠ nu) :
    ∀ (L : List AuthToken) (cur : List AuthToken),
      (∀ tok ∈ L, tok ∈ db ∧ tok.user = some ou) →
      TokenCorr db ou nu cur → NodupIds cur →
      TokenCorr db ou nu (L.foldl (migrateStep db nu) cur) ∧
        NodupIds (L.foldl (migrateStep db nu) cur) := by
  intro L
  induction L with
  | nil => exact fun cur _ h1 h2 => ⟨h1, h2⟩
  | cons tok L ih =>
    intro cur hL hcorr hcur
    rw [List.foldl_cons]
    have h1 := hL tok (List.mem_cons_self tok L)
    exact ih _ (fun x hx => hL x (List.mem_cons_of_mem _ hx))
      (migrateStep_corr hcorr hdb h1.1 h1.2 hne) (migrateStep_nodupIds hcur)

theorem migrate_fold_frame {db : List AuthToken} {ou nu c : Nat}
    (hdb : NodupIds db) (hne : ou ≠ nu) :
    ∀ (L : List AuthToken) (cur : List AuthToken),
      (∀ tok ∈ L, tok ∈ db ∧ tok.user = some ou ∧ tok.client ≠ c) →
      TokenCorr db ou nu cur → NodupIds cur →
      (L.foldl (migrateStep db nu) cur).filter (fun t => decide (t.client = c)) =
        cur.filter (fun t => decide (t.client = c)) := by
  intro L
  induction L with
  | nil => exact fun cur _ _ _ => rfl
  | cons tok L ih =>
    intro cur hL hcorr hcur
    rw [List.foldl_cons]
    have h1 := hL tok (List.mem_cons_self tok L)
    rw [ih _ (fun x hx => hL x (List.mem_cons_of_mem _ hx))
      (migrateStep_corr hcorr hdb h1.1 h1.2.1 hne) (migrateStep_nodupIds hcur)]
    exact migrateStep_frame hcorr hdb h1.1 h1.2.2

theorem migrate_fold_inv {db : List AuthToken} {ou nu : Nat}
    (hdb : NodupIds db) (hne : ou ≠ nu) :
    ∀ (L : List AuthToken) (cur : List AuthToken),
      (∀ tok ∈ L, tok ∈ db ∧ tok.user = some ou) →
      TokenCorr db ou nu cur → NodupIds cur →
      (∀ t ∈ db, t.user = none → t ∈ cur) →
      (∀ t ∈ cur, t.user = some ou → ∃ tok ∈ L, tok.id = t.id) →
      (∀ t ∈ db, t.user = none → t ∈ L.foldl (migrateStep db nu) cur) ∧
        (∀ t ∈ L.foldl (migrateStep db nu) cur, ¬t.user = some ou) := by
  intro L
  induction L with
  | nil =>
    intro cur _ _ _ hnone hou
    refine ⟨hnone, ?_⟩
    intro t ht htu
    rcases hou t ht htu with ⟨tok, htok, _⟩
    cases htok
  | cons tok L ih =>
    intro cur hL hcorr hcur hnone hou
    rw [List.foldl_cons]
    have h1 := hL tok (List.mem_cons_self tok L)
    refine ih _ (fun x hx => hL x (List.mem_cons_of_mem _ hx))
      (migrateStep_corr hcorr hdb h1.1 h1.2 hne) (migrateStep_nodupIds hcur) ?_ ?_
    · intro t ht htu
      exact migrateStep_none_kept hcorr hdb hcur h1.1 h1.2 t (hnone t ht htu) htu
    · intro t2 ht2 ht2u
      rcases migrateStep_ou_shrink hcur hne t2 ht2 ht2u with ⟨hnid, t, ht, hid, htu⟩
      rcases hou t ht htu with ⟨tok2, htok2, htok2id⟩
      rcases List.mem_cons.mp htok2 with rfl | htok2m
      · exact absurd (htok2id.trans hid).symm hnid
      · exact ⟨tok2, htok2m, htok2id.trans hid⟩

/-- C1: for distinct users `ou` and `nu` where `nu` already holds an
AuthToken for the same client as one of `ou`'s tokens, after
`AuthToken.migrate_user` exactly one token exists for (`nu`, that client)
and its scope is the union of the two prior scopes; no token remains for
(`ou`, that client); running the migration a second time changes nothing;
and tokens with a null user are never modified. -/
theorem authtoken_migrate_user_spec
    (db : List AuthToken) (ou nu : Nat) (told tnew : AuthToken)
    (hne : ou ≠ nu)
    (hdb : NodupIds db)
    (huniq : ∀ t1 ∈ db, ∀ t2 ∈ db, ∀ u : Nat, t1.user = some u → t2.user = some u →
      t1.client = t2.client → t1 = t2)
    (htold : told ∈ db) (htoldu : told.user = some ou)
    (htnew : tnew ∈ db) (htnewu : tnew.user = some nu)
    (hclient : tnew.client = told.client) :
    (AuthToken.migrate_user (some ou) (some nu) db).filter
        (fun t => decide (t.user = some nu ∧ t.client = told.client))
      = [tnew.set_scope (pySetUnion tnew.scope told.scope)] ∧
    (∀ x, x ∈ (tnew.set_scope (pySetUnion tnew.scope told.scope)).scope ↔
      (x ∈ tnew.scope ∨ x ∈ told.scope)) ∧
    (AuthToken.migrate_user (some ou) (some nu) db).filter
        (fun t => decide (t.user = some ou ∧ t.client = told.client)) = [] ∧
    AuthToken.migrate_user (some ou) (some nu)
        (AuthToken.migrate_user (some ou) (some nu) db)
      = AuthToken.migrate_user (some ou) (some nu) db ∧
    (∀ t ∈ db, t.user = none → t ∈ AuthToken.migrate_user (some ou) (some nu) db) ∧
    (∀ t ∈ AuthToken.migrate_user (some ou) (some nu) db, t.user = none → t ∈ db) := by
  have hnodup : db.Nodup := nodupIds_nodup hdb
  -- the unique (nu, client) row and the unique (ou, client) row
  have h1 : db.filter (fun t => decide (t.user = some nu ∧ t.client = told.client))
      = [tnew] := by
    refine filter_eq_singleton_of hnodup htnew (decide_eq_true ⟨htnewu, hclient⟩) ?_
    intro b hb hpb
    have h := of_decide_eq_true hpb
    exact huniq b hb tnew htnew nu h.1 htnewu (h.2.trans hclient.symm)
  have h2 : db.filter (fun t => decide (t.user = some ou ∧ t.client = told.client))
      = [told] := by
    refine filter_eq_singleton_of hnodup htold (decide_eq_true ⟨htoldu, rfl⟩) ?_
    intro b hb hpb
    have h := of_decide_eq_true hpb
    exact huniq b hb told htold ou h.1 htoldu h.2
  have hnewids : newtokenIds db nu told.client = [tnew.id] := by
    rw [newtokenIds, h1]
    rfl
  have htnewid : ¬tnew.id = told.id := by
    intro hid
    have he : tnew = told := nodupIds_id_inj hdb htnew htold hid
    rw [he, htoldu] at htnewu
    exact hne (Option.some.inj htnewu)
  -- decompose the old-token worklist around the unique client row
  have h4 : (db.filter (fun t => decide (t.user = some ou))).filter
      (fun t => decide (t.client = told.client)) = [told] := by
    rw [List.filter_filter]
    have hfun : (fun t : AuthToken =>
        decide (t.client = told.client) && decide (t.user = some ou)) =
        fun t => decide (t.user = some ou ∧ t.client = told.client) := by
      funext t
      rw [Bool.decide_and, Bool.and_comm]
    rw [hfun, h2]
  rcases filter_singleton_decomp h4 with ⟨L1, L2, hsplit, hA, hB⟩
  have holdmem : ∀ x ∈ db.filter (fun t => decide (t.user = some ou)),
      x ∈ db ∧ x.user = some ou := by
    intro x hx
    have h := List.mem_filter.mp hx
    exact ⟨h.1, of_decide_eq_true h.2⟩
  have hL1mem : ∀ x ∈ L1, x ∈ db ∧ x.user = some ou := by
    intro x hx
    exact holdmem x (hsplit ▸ List.mem_append_left _ hx)
  have hL2mem : ∀ x ∈ L2, x ∈ db ∧ x.user = some ou := by
    intro x hx
    exact holdmem x (hsplit ▸ List.mem_append_right _ (List.mem_cons_of_mem _ hx))
  have hL1c : ∀ x ∈ L1, x ∈ db ∧ x.user = some ou ∧ x.client ≠ told.client := by
    intro x hx
    exact ⟨(hL1mem x hx).1, (hL1mem x hx).2, fun hc => hA x hx (decide_eq_true hc)⟩
  have hL2c : ∀ x ∈ L2, x ∈ db ∧ x.user = some ou ∧ x.client ≠ told.client := by
    intro x hx
    exact ⟨(hL2mem x hx).1, (hL2mem x hx).2, fun hc => hB x hx (decide_eq_true hc)⟩
  -- phase 1: steps before the matching client leave its rows untouched
  have hmidpack := migrate_fold_corr hdb hne L1 db hL1mem (tokenCorr_refl db ou nu) hdb
  have hmidframe := migrate_fold_frame hdb hne L1 db hL1c (tokenCorr_refl db ou nu) hdb
  have htnewmid : tnew ∈ L1.foldl (migrateStep db nu) db := by
    have hmem : tnew ∈ (L1.foldl (migrateStep db nu) db).filter
        (fun t => decide (t.client = told.client)) := by
      rw [hmidframe]
      exact List.mem_filter.mpr ⟨htnew, decide_eq_true hclient⟩
    exact (List.mem_filter.mp hmem).1
  -- phase 2: the step for the matching old token
  have hstep := migrateStep_at_match hmidpack.2 hnewids htnewmid htnewu
  have haftercorr := migrateStep_corr hmidpack.1 hdb htold htoldu hne
  have hafternodup : NodupIds (migrateStep db nu (L1.foldl (migrateStep db nu) db) told) :=
    migrateStep_nodupIds hmidpack.2
  -- unfold the migration into the three phases
  have hres : AuthToken.migrate_user (some ou) (some nu) db =
      L2.foldl (migrateStep db nu)
        (migrateStep db nu (L1.foldl (migrateStep db nu) db) told) := by
    show (db.filter (fun t => decide (t.user = some ou))).foldl (migrateStep db nu) db =
      L2.foldl (migrateStep db nu)
        (migrateStep db nu (L1.foldl (migrateStep db nu) db) told)
    rw [hsplit, List.foldl_append, List.foldl_cons]
  -- phase 3: later steps also leave the matching client rows untouched
  have hresframe := migrate_fold_frame hdb hne L2 _ hL2c haftercorr hafternodup
  -- the rows of the matching client after the migration
  have hafterclient : (migrateStep db nu (L1.foldl (migrateStep db nu) db) told).filter
      (fun t => decide (t.client = told.client)) =
      ((db.filter (fun t => decide (t.client = told.client))).map (fun t =>
        if t.id = tnew.id then t.set_scope (pySetUnion t.scope told.scope) else t)).filter
        (fun t => decide (¬t.id = told.id)) := by
    rw [hstep, filter_swap, map_filter_comm _ _ (fun t => by
      by_cases h : t.id = tnew.id
      · rw [if_pos h]
        rfl
      · rw [if_neg h]), hmidframe]
  have hresclient : (AuthToken.migrate_user (some ou) (some nu) db).filter
      (fun t => decide (t.client = told.client)) =
      ((db.filter (fun t => decide (t.client = told.client))).map (fun t =>
        if t.id = tnew.id then t.set_scope (pySetUnion t.scope told.scope) else t)).filter
        (fun t => decide (¬t.id = told.id)) := by
    rw [hres, hresframe, hafterclient]
  -- global invariants over the whole fold
  have hinv := migrate_fold_inv hdb hne (db.filter (fun t => decide (t.user = some ou))) db
    holdmem (tokenCorr_refl db ou nu) hdb (fun t ht _ => ht)
    (fun t ht htu => ⟨t, List.mem_filter.mpr ⟨ht, decide_eq_true htu⟩, rfl⟩)
  have hrescorr := (migrate_fold_corr hdb hne (db.filter (fun t => decide (t.user = some ou)))
    db holdmem (tokenCorr_refl db ou nu) hdb).1
  have hresnoou : ∀ t ∈ AuthToken.migrate_user (some ou) (some nu) db,
      ¬t.user = some ou := hinv.2
  refine ⟨?_, ?_, ?_, ?_, hinv.1, ?_⟩
  · -- exactly one (nu, client) row, carrying the merged scope
    rw [filter_user_client, hresclient, filter_swap, map_filter_comm _ _ (fun t => by
        by_cases h : t.id = tnew.id
        · rw [if_pos h]
          rfl
        · rw [if_neg h])]
    rw [← filter_user_client, h1]
    show List.filter _ [if tnew.id = tnew.id then
      tnew.set_scope (pySetUnion tnew.scope told.scope) else tnew] = _
    rw [if_pos rfl]
    apply List.filter_eq_self.mpr
    intro a ha
    rw [List.mem_singleton.mp ha]
    exact decide_eq_true htnewid
  · -- the merged scope is the union of the two prior scopes
    intro x
    rw [authtoken_scope_set_scope tnew (pySetUnion tnew.scope told.scope)
      (pySetUnion_ne_nil tnew.scope told.scope (pySplit_ne_nil tnew._scope))
      (fun y hy => by
        rcases (pySetUnion_mem tnew.scope told.scope y).mp hy with h | h
        · exact pySplit_no_space tnew._scope y h
        · exact pySplit_no_space told._scope y h)]
    rw [pySorted_mem, pySetUnion_mem]
  · -- no (ou, client) row remains
    rw [List.filter_eq_nil_iff]
    intro t ht hd
    exact hresnoou t ht (of_decide_eq_true hd).1
  · -- idempotence: the second run finds no tokens of the old user
    show ((AuthToken.migrate_user (some ou) (some nu) db).filter
        (fun t => decide (t.user = some ou))).foldl
        (migrateStep (AuthToken.migrate_user (some ou) (some nu) db) nu)
        (AuthToken.migrate_user (some ou) (some nu) db)
      = AuthToken.migrate_user (some ou) (some nu) db
    rw [List.filter_eq_nil_iff.mpr (fun t ht hd => hresnoou t ht (of_decide_eq_true hd))]
    rw [List.foldl_nil]
  · -- null-user rows in the result all come from the table unchanged
    intro t2 ht2 ht2u
    rcases hrescorr t2 ht2 with ⟨t1, ht1, hrel⟩
    rcases hrel with ht1e | ⟨hu, ht1e⟩ | ⟨hu, s, ht1e⟩
    · exact ht1e ▸ ht1
    · rw [ht1e] at ht2u
      exact Option.noConfusion ht2u
    · rw [ht1e] at ht2u
      have h5 : t1.user = none := ht2u
      rw [hu] at h5
      exact Option.noConfusion h5

/-! Concrete rows used by witnesses and counterexamples. -/

/-- Sample authorization code row. -/
def exampleAuthCode : AuthCode :=
  { id := 1, user := 1, client := 1, code := "c", _scope := "a",
    redirect_uri := "u", used := false }

/-- Sample token row. -/
def exampleAuthToken : AuthToken :=
  { id := 1, user := some 1, client := 1, token := "tk", token_type := "bearer",
    secret := none, _algorithm := none, _scope := "a", validity := 0,
    refresh_token := none }

/-- Sample client-only token (null user, no refresh token). -/
def tokenClientOnly : AuthToken :=
  { id := 2, user := none, client := 1, token := "t2", token_type := "bearer",
    secret := some "s", _algorithm := none, _scope := "a", validity := 0,
    refresh_token := none }

/-- Sample user-attached token (non-null refresh token). -/
def tokenWithUser : AuthToken :=
  { id := 3, user := some 7, client := 1, token := "t3", token_type := "bearer",
    secret := some "s", _algorithm := none, _scope := "a b", validity := 5,
    refresh_token := some "r" }

/-- C6: parsing a scope string, serializing the result through the scope
setter, and parsing again yields the same tokens: exactly (order preserved)
for `AuthCode`, and as the same token set for `AuthToken` (which sorts). -/
theorem scope_roundtrip_spec (s : String) (c : AuthCode) (t : AuthToken) :
    (c.set_scope (pySplit s)).scope = pySplit s ∧
    ∀ x, x ∈ (t.set_scope (pySplit s)).scope ↔ x ∈ pySplit s := by
  constructor
  · exact authcode_scope_set_scope c (pySplit s) (pySplit_ne_nil s) (pySplit_no_space s)
  · intro x
    rw [authtoken_scope_set_scope t (pySplit s) (pySplit_ne_nil s) (pySplit_no_space s)]
    exact pySorted_mem (pySplit s) x

/-- C4 counterexample: the empty scope string does not parse to the empty
set; it parses to a single empty token, for both `AuthCode` and
`AuthToken`. -/
theorem scope_parse_empty_counterexample :
    ({ exampleAuthCode with _scope := "" } : AuthCode).scope = [""] ∧
    ¬({ exampleAuthCode with _scope := "" } : AuthCode).scope = [] ∧
    ({ exampleAuthToken with _scope := "" } : AuthToken).scope = [""] := by
  refine ⟨rfl, ?_, rfl⟩
  intro h
  exact List.noConfusion h

/-- C4 (amended): scope parsing splits the stored string on single spaces —
parsed tokens contain no space and rejoining them with single spaces
restores the stored string — and the empty string parses to the singleton
list holding the empty token, not to the empty set. -/
theorem scope_parse_amended (c : AuthCode) (t : AuthToken) :
    pyJoin c.scope = c._scope ∧ (∀ x ∈ c.scope, ' ' ∉ x.data) ∧
    pyJoin t.scope = t._scope ∧ (∀ x ∈ t.scope, ' ' ∉ x.data) ∧
    (c._scope = "" → c.scope = [""]) ∧ (t._scope = "" → t.scope = [""]) := by
  refine ⟨pyJoin_pySplit c._scope, pySplit_no_space c._scope,
    pyJoin_pySplit t._scope, pySplit_no_space t._scope, ?_, ?_⟩
  · intro h
    show pySplit c._scope = [""]
    rw [h]
    rfl
  · intro h
    show pySplit t._scope = [""]
    rw [h]
    rfl

/-- Witness for the amended C4 theorem at concrete rows with empty scope. -/
theorem scope_parse_amended_witness :
    ({ exampleAuthCode with _scope := "" } : AuthCode).scope = [""] ∧
    ({ exampleAuthToken with _scope := "" } : AuthToken).scope = [""] := by
  have h := scope_parse_amended { exampleAuthCode with _scope := "" }
    { exampleAuthToken with _scope := "" }
  exact ⟨h.2.2.2.2.1 rfl, h.2.2.2.2.2 rfl⟩

/-- C3: `refresh` on a token with a refresh token rotates `token` and
`secret` to the fresh values while leaving every other field unchanged;
on a token without a refresh token it is a no-op (and raises no error). -/
theorem authtoken_refresh_spec (t : AuthToken) (fresh_token fresh_secret : String) :
    (t.refresh_token = none → t.refresh fresh_token fresh_secret = t) ∧
    (¬t.refresh_token = none →
      (t.refresh fresh_token fresh_secret).token = fresh_token ∧
      (t.refresh fresh_token fresh_secret).secret = some fresh_secret ∧
      (t.refresh fresh_token fresh_secret).refresh_token = t.refresh_token ∧
      (t.refresh fresh_token fresh_secret)._scope = t._scope ∧
      (t.refresh fresh_token fresh_secret).validity = t.validity ∧
      (t.refresh fresh_token fresh_secret).id = t.id ∧
      (t.refresh fresh_token fresh_secret).user = t.user ∧
      (t.refresh fresh_token fresh_secret).client = t.client ∧
      (t.refresh fresh_token fresh_secret).token_type = t.token_type ∧
      (t.refresh fresh_token fresh_secret)._algorithm = t._algorithm) := by
  constructor
  · intro h
    show (if t.refresh_token ≠ none then _ else t) = t
    rw [if_neg (by simp [h])]
  · intro h
    have he : t.refresh fresh_token fresh_secret
        = { t with token := fresh_token, secret := some fresh_secret } := by
      show (if t.refresh_token ≠ none then _ else t) = _
      rw [if_pos h]
    rw [he]
    exact ⟨rfl, rfl, rfl, rfl, rfl, rfl, rfl, rfl, rfl, rfl⟩

/-- Witness for C3 at a client-only token and a user-attached token. -/
theorem authtoken_refresh_spec_witness :
    tokenClientOnly.refresh "n" "ns" = tokenClientOnly ∧
    (tokenWithUser.refresh "n" "ns").token = "n" ∧
    (tokenWithUser.refresh "n" "ns").secret = some "ns" ∧
    (tokenWithUser.refresh "n" "ns").refresh_token = some "r" ∧
    (tokenWithUser.refresh "n" "ns")._scope = "a b" := by
  have h1 := (authtoken_refresh_spec tokenClientOnly "n" "ns").1 rfl
  have h2 := (authtoken_refresh_spec tokenWithUser "n" "ns").2 (by decide)
  exact ⟨h1, h2.1, h2.2.1, h2.2.2.1.trans rfl, h2.2.2.2.1.trans rfl⟩

/-- C8: the `algorithm` setter accepts only `None`, `hmac-sha-1` and
`hmac-sha-256`; `None` also clears the secret, a recognized value is stored
with the secret untouched, any other value raises `ValueError`, and along
any sequence of setter calls the field stays inside the allowed set. -/
theorem authtoken_algorithm_spec (t : AuthToken) (v : String) (vs : List (Option String)) :
    t.set_algorithm none = .ok { t with _algorithm := none, secret := none } ∧
    (v = "hmac-sha-1" ∨ v = "hmac-sha-256" →
      t.set_algorithm (some v) = .ok { t with _algorithm := some v }) ∧
    (¬v = "hmac-sha-1" → ¬v = "hmac-sha-256" →
      t.set_algorithm (some v) = .error "Unrecognized algorithm") ∧
    (t._algorithm ∈ allowedAlgorithms →
      (vs.foldl applyAlgorithm t)._algorithm ∈ allowedAlgorithms) := by
  refine ⟨rfl, ?_, ?_, ?_⟩
  · intro h
    show (if v = "hmac-sha-1" ∨ v = "hmac-sha-256" then _ else _) = _
    rw [if_pos h]
  · intro h1 h2
    show (if v = "hmac-sha-1" ∨ v = "hmac-sha-256" then _ else _) = _
    rw [if_neg ?_]
    rintro (h | h)
    · exact h1 h
    · exact h2 h
  · induction vs generalizing t with
    | nil => exact fun h => h
    | cons v2 rest ih =>
      intro h
      rw [List.foldl_cons]
      apply ih
      cases v2 with
      | none =>
        show ({ t with _algorithm := none, secret := none } : AuthToken)._algorithm
          ∈ allowedAlgorithms
        exact List.mem_cons_self _ _
      | some s =>
        show (applyAlgorithm t (some s))._algorithm ∈ allowedAlgorithms
        by_cases hs : s = "hmac-sha-1" ∨ s = "hmac-sha-256"
        · have hsa : t.set_algorithm (some s) = .ok { t with _algorithm := some s } := by
            show (if s = "hmac-sha-1" ∨ s = "hmac-sha-256" then _ else _) = _
            rw [if_pos hs]
          have he : applyAlgorithm t (some s) = { t with _algorithm := some s } := by
            unfold applyAlgorithm
            rw [hsa]
          rw [he]
          rcases hs with rfl | rfl
          · exact List.mem_cons_of_mem _ (List.mem_cons_self _ _)
          · exact List.mem_cons_of_mem _ (List.mem_cons_of_mem _ (List.mem_cons_self _ _))
        · have hsa : t.set_algorithm (some s) = .error "Unrecognized algorithm" := by
            show (if s = "hmac-sha-1" ∨ s = "hmac-sha-256" then _ else _) = _
            rw [if_neg hs]
          have he : applyAlgorithm t (some s) = t := by
            unfold applyAlgorithm
            rw [hsa]
          rw [he]
          exact h

/-- Witness for C8: the recognized value is stored, a bogus value errors,
and a mixed assignment sequence ends inside the allowed set. -/
theorem authtoken_algorithm_spec_witness :
    tokenWithUser.set_algorithm (some "hmac-sha-1")
      = .ok { tokenWithUser with _algorithm := some "hmac-sha-1" } ∧
    tokenWithUser.set_algorithm (some "md5") = .error "Unrecognized algorithm" ∧
    (([some "hmac-sha-1", some "md5", none]).foldl applyAlgorithm
      tokenWithUser)._algorithm ∈ allowedAlgorithms := by
  have h := authtoken_algorithm_spec tokenWithUser "hmac-sha-1"
    [some "hmac-sha-1", some "md5", none]
  have h2 := authtoken_algorithm_spec tokenWithUser "md5" []
  exact ⟨h.2.1 (Or.inl rfl), h2.2.2.1 (by decide) (by decide), h.2.2.2 (by decide)⟩

/-- C9: a freshly constructed Organization has a non-null `owners` team,
created by the constructor itself and belonging to that organization. -/
theorem organization_init_owners (oid tid : Nat) (uid : String) (name : Option String)
    (title description : String) :
    (Organization.init oid tid uid name title description).1.owners = some tid ∧
    (Organization.init oid tid uid name title description).2
      = [{ id := tid, title := "Owners", org := oid }] ∧
    (Organization.init oid tid uid name title description).1.id = oid ∧
    ∀ tm ∈ (Organization.init oid tid uid name title description).2,
      tm.org = (Organization.init oid tid uid name title description).1.id := by
  refine ⟨rfl, rfl, rfl, ?_⟩
  intro tm htm
  rw [List.mem_singleton.mp htm]
  rfl

/-- Witness for C9 at concrete ids. -/
theorem organization_init_owners_witness :
    (Organization.init 1 2 "ouid" none "T" "D").1.owners = some 2 ∧
    (Organization.init 1 2 "ouid" none "T" "D").2
      = [{ id := 2, title := "Owners", org := 1 }] ∧
    ({ id := 2, title := "Owners", org := 1 } : Team).org
      = (Organization.init 1 2 "ouid" none "T" "D").1.id := by
  have h := organization_init_owners 1 2 "ouid" none "T" "D"
  exact ⟨h.1, h.2.1, h.2.2.2 { id := 2, title := "Owners", org := 1 } (by decide)⟩

/-- C7: with `allusers` true, `Permission.get` ignores the `user` and `org`
arguments and returns the first global permission with the name; with
`allusers` false it raises unless exactly one of `user`/`org` is given, and
then returns the first permission with that name owned by that principal
(or not-found). -/
theorem permission_get_spec (db : List Permission) (name : String) (u o u2 o2 : Option Nat) :
    Permission.get db name u o true = Permission.get db name u2 o2 true ∧
    (∀ p, Permission.get db name u o true = .ok (some p) →
      p ∈ db ∧ p.name = name ∧ p.allusers = true) ∧
    (Permission.get db name u o true = .ok none →
      ∀ p ∈ db, ¬(p.name = name ∧ p.allusers = true)) ∧
    (u.isSome = o.isSome → Permission.get db name u o false
      = .error "Either user or org should be specified") ∧
    (∀ x, Permission.get db name (some x) none false
      = .ok (db.find? (fun p => decide (p.name = name ∧ p.user = some x)))) ∧
    (∀ y, Permission.get db name none (some y) false
      = .ok (db.find? (fun p => decide (p.name = name ∧ p.org = some y)))) ∧
    (∀ x p, Permission.get db name (some x) none false = .ok (some p) →
      p ∈ db ∧ p.name = name ∧ p.user = some x) ∧
    Permission.get db name u o true
      = .ok (db.find? (fun p => decide (p.name = name ∧ p.allusers = true))) ∧
    (∀ p, Permission.get db name u o true = .ok (some p) →
      ∃ l1 l2, db = l1 ++ p :: l2 ∧ ∀ q ∈ l1, ¬(q.name = name ∧ q.allusers = true)) := by
  refine ⟨rfl, ?_, ?_, ?_, fun x => rfl, fun y => rfl, ?_, rfl, ?_⟩
  · intro p h
    have hf : db.find? (fun p => decide (p.name = name ∧ p.allusers = true)) = some p :=
      Except.ok.inj h
    have hp := @List.find?_some _ (fun p => decide (p.name = name ∧ p.allusers = true)) p db hf
    exact ⟨List.mem_of_find?_eq_some hf, of_decide_eq_true hp⟩
  · intro h p hp
    have hf : db.find? (fun p => decide (p.name = name ∧ p.allusers = true)) = none :=
      Except.ok.inj h
    intro hc
    exact (List.find?_eq_none.mp hf p hp) (decide_eq_true hc)
  · intro h
    have hx : (!(u.isSome ^^ o.isSome)) = true := by
      rw [h, Bool.xor_self]
      rfl
    show (if false = true then _
      else if (!(u.isSome ^^ o.isSome)) = true then _ else _) = _
    rw [if_neg (by exact Bool.noConfusion), if_pos hx]
  · intro x p h
    have hf : db.find? (fun p => decide (p.name = name ∧ p.user = some x)) = some p :=
      Except.ok.inj h
    have hp := @List.find?_some _ (fun p => decide (p.name = name ∧ p.user = some x)) p db hf
    exact ⟨List.mem_of_find?_eq_some hf, (of_decide_eq_true hp).1, (of_decide_eq_true hp).2⟩
  · intro p h
    have hf : db.find? (fun p => decide (p.name = name ∧ p.allusers = true)) = some p :=
      Except.ok.inj h
    rcases List.find?_eq_some.mp hf with ⟨hp, l1, l2, heq, hprev⟩
    refine ⟨l1, l2, heq, ?_⟩
    intro q hq hc
    have h2 := hprev q hq
    rw [decide_eq_true hc] at h2
    exact Bool.noConfusion h2

/-- Sample global (allusers) permission row. -/
def permGlobal : Permission :=
  { id := 1, user := none, org := none, name := "x", title := "X", allusers := true }

/-- Sample user-owned permission row. -/
def permOwned : Permission :=
  { id := 2, user := some 5, org := none, name := "x", title := "X", allusers := false }

/-- Witness for C7 on a two-row table. -/
theorem permission_get_spec_witness :
    Permission.get [permOwned, permGlobal] "x" (some 5) (some 6) true
      = Permission.get [permOwned, permGlobal] "x" none none true ∧
    Permission.get [permOwned, permGlobal] "x" (some 5) (some 6) true
      = .ok (some permGlobal) ∧
    Permission.get [permOwned, permGlobal] "x" (some 5) (some 6) false
      = .error "Either user or org should be specified" ∧
    Permission.get [permOwned, permGlobal] "x" (some 5) none false
      = .ok (some permOwned) := by
  have h := permission_get_spec [permOwned, permGlobal] "x" (some 5) (some 6) none none
  refine ⟨h.1, (h.2.2.2.2.2.2.2.1).trans ?_, h.2.2.2.1 rfl, ?_⟩
  · rfl
  · rw [h.2.2.2.2.1 5]
    rfl

/-- C10: `User.get` returns only users with `status=ACTIVE` — a SUSPENDED or
MERGED user is never returned even when the identifier matches — and raises
an error unless exactly one of `username`/`userid` is supplied (non-empty). -/
theorem user_get_spec (db : List User) (username userid : Option String) :
    (∀ u, User.get db username userid = .ok (some u) →
      u ∈ db ∧ u.status = USER_STATUS.ACTIVE) ∧
    (∀ u ∈ db, ¬u.status = USER_STATUS.ACTIVE →
      ∀ r, User.get db username userid = .ok r → ¬r = some u) ∧
    ((∃ e, User.get db username userid = .error e) ↔
      pyTruthy username = pyTruthy userid) := by
  by_cases hx : pyTruthy username = pyTruthy userid
  · have hget : User.get db username userid
        = .error "Either username or userid should be specified" := by
      have hb : (!(pyTruthy username ^^ pyTruthy userid)) = true := by
        rw [hx, Bool.xor_self]
        rfl
      show (if (!(pyTruthy username ^^ pyTruthy userid)) = true then _ else _) = _
      rw [if_pos hb]
    refine ⟨?_, ?_, ?_⟩
    · intro u h
      rw [hget] at h
      exact Except.noConfusion h
    · intro u _ _ r h
      rw [hget] at h
      exact Except.noConfusion h
    · exact ⟨fun _ => hx, fun _ => ⟨_, hget⟩⟩
  · have hb : (!(pyTruthy username ^^ pyTruthy userid)) = false := by
      cases ha : pyTruthy username <;> cases hc : pyTruthy userid <;>
        first
        | rfl
        | (exact absurd (ha.trans hc.symm) hx)
    by_cases hu : pyTruthy userid = true
    · have hget : User.get db username userid = .ok (db.find?
          (fun u => decide (some u.userid = userid ∧ u.status = USER_STATUS.ACTIVE))) := by
        show (if (!(pyTruthy username ^^ pyTruthy userid)) = true then _
          else if pyTruthy userid = true then _ else _) = _
        rw [if_neg (by rw [hb]; exact Bool.noConfusion), if_pos hu]
      refine ⟨?_, ?_, ?_⟩
      · intro u h
        rw [hget] at h
        have hf := Except.ok.inj h
        have hp := @List.find?_some _
          (fun u => decide (some u.userid = userid ∧ u.status = USER_STATUS.ACTIVE)) u db hf
        exact ⟨List.mem_of_find?_eq_some hf, (of_decide_eq_true hp).2⟩
      · intro u _ hs r h hr
        rw [hget] at h
        have hf := Except.ok.inj h
        rw [hr] at hf
        have hp := @List.find?_some _
          (fun u => decide (some u.userid = userid ∧ u.status = USER_STATUS.ACTIVE)) u db hf
        exact hs (of_decide_eq_true hp).2
      · constructor
        · rintro ⟨e, he⟩
          rw [hget] at he
          exact Except.noConfusion he
        · intro hab
          exact absurd hab hx
    · have hget : User.get db username userid = .ok (db.find?
          (fun u => decide (u.username = username ∧ u.status = USER_STATUS.ACTIVE))) := by
        show (if (!(pyTruthy username ^^ pyTruthy userid)) = true then _
          else if pyTruthy userid = true then _ else _) = _
        rw [if_neg (by rw [hb]; exact Bool.noConfusion), if_neg hu]
      refine ⟨?_, ?_, ?_⟩
      · intro u h
        rw [hget] at h
        have hf := Except.ok.inj h
        have hp := @List.find?_some _
          (fun u => decide (u.username = username ∧ u.status = USER_STATUS.ACTIVE)) u db hf
        exact ⟨List.mem_of_find?_eq_some hf, (of_decide_eq_true hp).2⟩
      · intro u _ hs r h hr
        rw [hget] at h
        have hf := Except.ok.inj h
        rw [hr] at hf
        have hp := @List.find?_some _
          (fun u => decide (u.username = username ∧ u.status = USER_STATUS.ACTIVE)) u db hf
        exact hs (of_decide_eq_true hp).2
      · constructor
        · rintro ⟨e, he⟩
          rw [hget] at he
          exact Except.noConfusion he
        · intro hab
          exact absurd hab hx

/-- Sample suspended user row. -/
def userSuspended : User :=
  { id := 1, userid := "uid1", username := some "bob", fullname := "Bob",
    status := USER_STATUS.SUSPENDED }

/-- Sample active user row. -/
def userActive : User :=
  { id := 2, userid := "uid2", username := some "alice", fullname := "Alice",
    status := USER_STATUS.ACTIVE }

/-- Witness for C10: looking up a suspended user's username never returns
that user, and supplying neither argument errors. -/
theorem user_get_spec_witness :
    (∀ r, User.get [userSuspended, userActive] (some "bob") none = .ok r →
      ¬r = some userSuspended) ∧
    (∃ e, User.get [userSuspended, userActive] none none = .error e) := by
  have h := user_get_spec [userSuspended, userActive] (some "bob") none
  have h2 := user_get_spec [userSuspended, userActive] none none
  exact ⟨fun r => h.2.1 userSuspended (by decide) (by decide) r, h2.2.2.mpr rfl⟩

/-- Old user's permission row with the empty default permission string. -/
def ucpOld : UserClientPermissions :=
  { id := 1, user := 1, client := 10, access_permissions := "" }

/-- New user's permission row for the same client. -/
def ucpNew : UserClientPermissions :=
  { id := 2, user := 2, client := 10, access_permissions := "a" }

/-- C5: evaluation of `UserClientPermissions.migrate_user` at a merge where
the old row holds the default empty permission string: the merged string is
a space followed by the other token — the empty-string token is retained,
because the code's removal check tests for a single-space token, which can
never result from splitting on spaces. -/
theorem ucp_migrate_user_keeps_empty_token :
    UserClientPermissions.migrate_user 1 2 [ucpOld, ucpNew]
      = [{ ucpNew with access_permissions := " a" }] ∧
    "" ∈ pySplit " a" := by
  constructor
  · rfl
  · decide

/-- Old user's token row for client 10. -/
def migTokenOld : AuthToken :=
  { id := 1, user := some 1, client := 10, token := "o", token_type := "bearer",
    secret := none, _algorithm := none, _scope := "b", validity := 0,
    refresh_token := some "ro" }

/-- New user's token row for the same client 10. -/
def migTokenNew : AuthToken :=
  { id := 2, user := some 2, client := 10, token := "n", token_type := "bearer",
    secret := none, _algorithm := none, _scope := "a", validity := 0,
    refresh_token := some "rn" }

/-- Client-only token row (null user). -/
def migTokenClient : AuthToken :=
  { id := 3, user := none, client := 10, token := "c", token_type := "bearer",
    secret := none, _algorithm := none, _scope := "z", validity := 0,
    refresh_token := none }

/-- Witness for C1 on a three-row table: one old-user token, one new-user
token for the same client, and one client-only token. -/
theorem authtoken_migrate_user_spec_witness :
    (AuthToken.migrate_user (some 1) (some 2)
        [migTokenOld, migTokenNew, migTokenClient]).filter
        (fun t => decide (t.user = some 2 ∧ t.client = migTokenOld.client))
      = [migTokenNew.set_scope (pySetUnion migTokenNew.scope migTokenOld.scope)] ∧
    ("b" ∈ (migTokenNew.set_scope
        (pySetUnion migTokenNew.scope migTokenOld.scope)).scope ↔
      ("b" ∈ migTokenNew.scope ∨ "b" ∈ migTokenOld.scope)) ∧
    (AuthToken.migrate_user (some 1) (some 2)
        [migTokenOld, migTokenNew, migTokenClient]).filter
        (fun t => decide (t.user = some 1 ∧ t.client = migTokenOld.client)) = [] ∧
    AuthToken.migrate_user (some 1) (some 2)
        (AuthToken.migrate_user (some 1) (some 2)
          [migTokenOld, migTokenNew, migTokenClient])
      = AuthToken.migrate_user (some 1) (some 2)
          [migTokenOld, migTokenNew, migTokenClient] ∧
    migTokenClient ∈ AuthToken.migrate_user (some 1) (some 2)
        [migTokenOld, migTokenNew, migTokenClient] := by
  have h := authtoken_migrate_user_spec [migTokenOld, migTokenNew, migTokenClient]
    1 2 migTokenOld migTokenNew (by decide) (by unfold NodupIds; decide)
    (by
      have hd : ∀ t1 ∈ ([migTokenOld, migTokenNew, migTokenClient] : List AuthToken),
          ∀ t2 ∈ ([migTokenOld, migTokenNew, migTokenClient] : List AuthToken),
          ¬t1.user = none → t1.user = t2.user → t1.client = t2.client → t1 = t2 := by
        decide
      intro t1 h1 t2 h2 u hu1 hu2 hc
      refine hd t1 h1 t2 h2 ?_ (hu1.trans hu2.symm) hc
      intro hn
      rw [hu1] at hn
      exact Option.noConfusion hn)
    (by decide) (by decide) (by decide) (by decide) (by decide)
  exact ⟨h.1, h.2.1 "b", h.2.2.1, h.2.2.2.1, h.2.2.2.2.1 migTokenClient (by decide) rfl⟩

end Lastuser
